import Mathlib

/-!
Verification of the FEM mesh-construction component of SU2
(`Common/src/fem_geometry_structure.cpp`, constructor `CMeshFEM::CMeshFEM`
and the comparators it relies on).

The C++ code is shallowly embedded: `su2double` coordinates are modelled by
exact rationals `ℚ`, `unsigned long` indices by `Nat`, `short`/`long` values
that can be negative by `Int`.  `std::sort` is modelled by insertion sort
under the complement of the strict comparator (its contract is only that the
result is sorted), `std::unique` by an explicit keep-first-of-each-run pass,
and `std::binary_search` by an explicit fuelled halving search driven by the
same comparator.
-/

/-! ### The tolerance-based point comparator `CPointCompare` -/

/-- The record `CPointCompare` (file `fem_geometry_structure.cpp`): spatial
dimension, associated node index, matching tolerance and the coordinate
array `coor[3]`, modelled as a function from index to value. -/
structure CPointCompare where
  nDim : Nat
  nodeID : Nat
  tolForMatching : ℚ
  coor : Nat → ℚ

/-- The coordinate loop of `CPointCompare::operator<` (lines 48-53): starting
at index `l` with `rem` iterations left, if the coordinates at `l` differ by
more than `tol` return `coor[l] < other.coor[l]`, otherwise continue; when
the loop ends, return `false`. -/
def coorLessAux (tol : ℚ) (p q : Nat → ℚ) : Nat → Nat → Bool
  | _, 0 => false
  | l, rem + 1 =>
    if |p l - q l| > tol then decide (p l < q l) else coorLessAux tol p q (l + 1) rem

/-- `CPointCompare::operator<` (lines 44-54): points of different dimension
compare by dimension; otherwise the coordinates are compared with the loop
above under the tolerance `min(tolForMatching, other.tolForMatching)`. -/
def CPointCompare.less (p q : CPointCompare) : Bool :=
  if p.nDim ≠ q.nDim then decide (p.nDim < q.nDim)
  else coorLessAux (min p.tolForMatching q.tolForMatching) p.coor q.coor 0 p.nDim

lemma coorLessAux_eq_false (tol : ℚ) (p q : Nat → ℚ) :
    ∀ rem l, (∀ j, j < rem → |p (l + j) - q (l + j)| ≤ tol) →
      coorLessAux tol p q l rem = false := by
  intro rem
  induction rem with
  | zero => intro l _; rfl
  | succ n ih =>
    intro l h
    have h0 : |p l - q l| ≤ tol := by simpa using h 0 (Nat.succ_pos n)
    rw [coorLessAux, if_neg (by simpa using not_lt.mpr h0)]
    apply ih
    intro j hj
    have hstep := h (j + 1) (by omega)
    have harith : l + (j + 1) = l + 1 + j := by omega
    simpa [harith] using hstep

lemma coorLessAux_eq_decide (tol : ℚ) (p q : Nat → ℚ) :
    ∀ k l rem, k < rem → (∀ j, j < k → |p (l + j) - q (l + j)| ≤ tol) →
      tol < |p (l + k) - q (l + k)| →
      coorLessAux tol p q l rem = decide (p (l + k) < q (l + k)) := by
  intro k
  induction k with
  | zero =>
    intro l rem hk _ habs
    cases rem with
    | zero => omega
    | succ m =>
      rw [coorLessAux, if_pos (by simpa using habs)]
      simp
  | succ n ih =>
    intro l rem hk hj habs
    cases rem with
    | zero => omega
    | succ m =>
      have h0 : |p l - q l| ≤ tol := by simpa using hj 0 (Nat.succ_pos n)
      rw [coorLessAux, if_neg (by simpa using not_lt.mpr h0)]
      have harith : l + (n + 1) = l + 1 + n := by omega
      rw [harith] at habs ⊢
      apply ih (l + 1) m (by omega) ?_ habs
      intro j hjn
      have hstep := hj (j + 1) (by omega)
      have harith2 : l + (j + 1) = l + 1 + j := by omega
      simpa [harith2] using hstep

/-- C7.  For two `CPointCompare` values of equal dimension, `operator<`
treats the points as equal (returns `false` in both directions) whenever all
coordinate pairs differ by at most the smaller of the two tolerances, and
otherwise decides by the first coordinate whose difference exceeds that
tolerance, comparing that coordinate lexicographically. -/
theorem C7_pointCompare_tolerant_lexicographic (p q : CPointCompare)
    (hdim : p.nDim = q.nDim) :
    ((∀ l, l < p.nDim →
        |p.coor l - q.coor l| ≤ min p.tolForMatching q.tolForMatching) →
      p.less q = false ∧ q.less p = false) ∧
    (∀ k, k < p.nDim →
      (∀ l, l < k →
        |p.coor l - q.coor l| ≤ min p.tolForMatching q.tolForMatching) →
      min p.tolForMatching q.tolForMatching < |p.coor k - q.coor k| →
      p.less q = decide (p.coor k < q.coor k)) := by
  have hpq : p.less q =
      coorLessAux (min p.tolForMatching q.tolForMatching) p.coor q.coor 0 p.nDim := by
    unfold CPointCompare.less
    rw [if_neg (by simp [hdim])]
  have hqp : q.less p =
      coorLessAux (min p.tolForMatching q.tolForMatching) q.coor p.coor 0 p.nDim := by
    unfold CPointCompare.less
    rw [if_neg (by simp [hdim])]
    rw [min_comm, hdim]
  constructor
  · intro hall
    constructor
    · rw [hpq]
      apply coorLessAux_eq_false
      intro j hj
      simpa using hall j (by simpa using hj)
    · rw [hqp]
      apply coorLessAux_eq_false
      intro j hj
      rw [abs_sub_comm]
      simpa using hall j (by simpa using hj)
  · intro k hk hbelow habove
    rw [hpq]
    have := coorLessAux_eq_decide (min p.tolForMatching q.tolForMatching)
      p.coor q.coor k 0 p.nDim (by simpa using hk)
      (by intro j hj; simpa using hbelow j hj) (by simpa using habove)
    simpa using this

/-- Concrete 2-D instance for the witness of C7. -/
def cpcW1 : CPointCompare :=
  { nDim := 2, nodeID := 0, tolForMatching := 1/10, coor := fun l => [0, 5].getD l 0 }

/-- Concrete 2-D instance for the witness of C7, within tolerance of `cpcW1`. -/
def cpcW2 : CPointCompare :=
  { nDim := 2, nodeID := 1, tolForMatching := 3/10, coor := fun l => [1/20, 5].getD l 0 }

/-- Witness for C7: a concrete pair of equal-dimension points, coordinatewise
within the smaller tolerance, on which the comparator returns `false` both
ways. -/
theorem C7_pointCompare_tolerant_lexicographic_witness :
    cpcW1.less cpcW2 = false ∧ cpcW2.less cpcW1 = false := by
  have h := C7_pointCompare_tolerant_lexicographic cpcW1 cpcW2 rfl
  apply h.1
  intro l hl
  have hl2 : l < 2 := by simpa [cpcW1] using hl
  interval_cases l <;> norm_num [cpcW1, cpcW2, abs_le]

/-- Concrete 1-D point with coordinate 0 and tolerance 3/2. -/
def cpcA : CPointCompare :=
  { nDim := 1, nodeID := 0, tolForMatching := 3/2, coor := fun _ => 0 }

/-- Concrete 1-D point with coordinate 1 and tolerance 3/2. -/
def cpcB : CPointCompare :=
  { nDim := 1, nodeID := 1, tolForMatching := 3/2, coor := fun _ => 1 }

/-- Concrete 1-D point with coordinate 2 and tolerance 3/2. -/
def cpcC : CPointCompare :=
  { nDim := 1, nodeID := 2, tolForMatching := 3/2, coor := fun _ => 2 }

/-- C8.  The comparator `CPointCompare::operator<` is not a strict weak
order: the concrete points `cpcA`, `cpcB`, `cpcC` (coordinates 0, 1, 2 with
tolerance 3/2) have `cpcA` tolerance-equal to `cpcB` and `cpcB`
tolerance-equal to `cpcC`, yet `cpcA < cpcC`, so the induced equality is not
transitive. -/
theorem C8_pointCompare_not_strict_weak_order :
    cpcA.less cpcB = false ∧ cpcB.less cpcA = false ∧
    cpcB.less cpcC = false ∧ cpcC.less cpcB = false ∧
    cpcA.less cpcC = true := by
  refine ⟨?_, ?_, ?_, ?_, ?_⟩ <;>
    norm_num [CPointCompare.less, coorLessAux, cpcA, cpcB, cpcC]

/-! ### Point records, halo descriptors, and the sort/unique deduplication -/

/-- The record `CPointFEM`: global point ID, periodic donor index (−1 when
the point is not periodic) and the coordinate array `coor[3]`. -/
structure CPointFEM where
  globalID : Nat
  periodIndexToDonor : Int
  coor : List ℚ
deriving DecidableEq, Repr, Inhabited

/-- `CPointFEM::operator<` (lines 64-68): primarily by periodic index,
tie-broken by global ID. -/
def CPointFEM.less (a b : CPointFEM) : Bool :=
  if a.periodIndexToDonor ≠ b.periodIndexToDonor then
    decide (a.periodIndexToDonor < b.periodIndexToDonor)
  else decide (a.globalID < b.globalID)

/-- `CPointFEM::operator==` (lines 70-73): equality of the
(globalID, periodIndexToDonor) pair, ignoring the coordinates. -/
def CPointFEM.eqKey (a b : CPointFEM) : Bool :=
  decide (a.globalID = b.globalID) && decide (a.periodIndexToDonor = b.periodIndexToDonor)

/-- Modelled from the spec: the pair type `unsignedLong2T` is declared in the
header `fem_geometry_structure.hpp`, which is not among the sources.  Spec §3
describes the halo descriptor as the pair (global element ID,
periodic index + 1) used as the identity for sorting and deduplication, so
the ordering is lexicographic on (long0, long1) and equality componentwise. -/
structure unsignedLong2T where
  long0 : Nat
  long1 : Nat
deriving DecidableEq, Repr, Inhabited

/-- Modelled from the spec: `operator<` of `unsignedLong2T`, lexicographic. -/
def unsignedLong2T.less (a b : unsignedLong2T) : Bool :=
  if a.long0 ≠ b.long0 then decide (a.long0 < b.long0) else decide (a.long1 < b.long1)

/-- Modelled from the spec: `operator==` of `unsignedLong2T`. -/
def unsignedLong2T.eqPair (a b : unsignedLong2T) : Bool :=
  decide (a.long0 = b.long0) && decide (a.long1 = b.long1)

/-- The ordering `std::sort` is used with: `a` may precede `b` whenever the
strict comparator does not put `b` strictly before `a`. -/
def cppLe {α : Type} (lt : α → α → Bool) (a b : α) : Prop := lt b a = false

instance {α : Type} (lt : α → α → Bool) : DecidableRel (cppLe lt) :=
  fun a b => inferInstanceAs (Decidable (lt b a = false))

/-- Model of `std::sort` with strict comparator `lt`: the contract of
`std::sort` is a permutation of the input in which no element strictly
precedes an earlier one, which insertion sort under `cppLe lt` realises. -/
def cppSort {α : Type} (lt : α → α → Bool) (l : List α) : List α :=
  l.insertionSort (cppLe lt)

/-- Inner loop of `std::unique` with predicate `eqb`: `kept` is the most
recently kept element; an element equal to it is removed, any other element
is kept and becomes the new comparison target. -/
def cppUniqueAux {α : Type} (eqb : α → α → Bool) (kept : α) : List α → List α
  | [] => []
  | y :: ys => if eqb kept y then cppUniqueAux eqb kept ys else y :: cppUniqueAux eqb y ys

/-- Model of `std::unique` followed by `erase`: keeps the first element of
every run of consecutive `eqb`-equal elements. -/
def cppUnique {α : Type} (eqb : α → α → Bool) : List α → List α
  | [] => []
  | x :: xs => x :: cppUniqueAux eqb x xs

/-- Lines 630-633 (and 1033-1035): `sort` + `unique` + `erase` on a vector
of `CPointFEM`. -/
def dedupPoints (l : List CPointFEM) : List CPointFEM :=
  cppUnique CPointFEM.eqKey (cppSort CPointFEM.less l)

/-- Lines 512-514: `sort` + `unique` + `erase` on the halo descriptors. -/
def dedupHalo (l : List unsignedLong2T) : List unsignedLong2T :=
  cppUnique unsignedLong2T.eqPair (cppSort unsignedLong2T.less l)

section SortUnique

variable {α : Type} (lt eqb : α → α → Bool)

lemma cppUniqueAux_subset :
    ∀ (kept : α) (l : List α) (x : α), x ∈ cppUniqueAux eqb kept l → x ∈ l := by
  intro kept l
  induction l generalizing kept with
  | nil => intro x hx; simp [cppUniqueAux] at hx
  | cons y ys ih =>
    intro x hx
    simp only [cppUniqueAux] at hx
    split_ifs at hx with h
    · exact List.mem_cons_of_mem _ (ih kept x hx)
    · rcases List.mem_cons.mp hx with h1 | h1
      · exact h1 ▸ List.mem_cons_self _ _
      · exact List.mem_cons_of_mem _ (ih y x h1)

lemma mem_cppUniqueAux_or (heq : ∀ a b, eqb a b = true → a = b) :
    ∀ (kept : α) (l : List α) (x : α), x ∈ l → x ∈ cppUniqueAux eqb kept l ∨ x = kept := by
  intro kept l
  induction l generalizing kept with
  | nil => intro x hx; cases hx
  | cons y ys ih =>
    intro x hx
    simp only [cppUniqueAux]
    rcases List.mem_cons.mp hx with h1 | h1
    · subst h1
      split_ifs with h
      · right; exact (heq _ _ h).symm
      · left; exact List.mem_cons_self _ _
    · split_ifs with h
      · exact ih kept x h1
      · rcases ih y x h1 with h2 | h2
        · left; exact List.mem_cons_of_mem _ h2
        · left; exact h2 ▸ List.mem_cons_self _ _

lemma mem_cppUnique (heq : ∀ a b, eqb a b = true → a = b) (l : List α) (x : α) :
    x ∈ cppUnique eqb l ↔ x ∈ l := by
  cases l with
  | nil => simp [cppUnique]
  | cons y ys =>
    simp only [cppUnique]
    constructor
    · intro hx
      rcases List.mem_cons.mp hx with h1 | h1
      · exact h1 ▸ List.mem_cons_self _ _
      · exact List.mem_cons_of_mem _ (cppUniqueAux_subset eqb y ys x h1)
    · intro hx
      rcases List.mem_cons.mp hx with h1 | h1
      · exact h1 ▸ List.mem_cons_self _ _
      · rcases mem_cppUniqueAux_or eqb heq y ys x h1 with h2 | h2
        · exact List.mem_cons_of_mem _ h2
        · exact h2 ▸ List.mem_cons_self _ _

lemma cppUniqueAux_eq_self :
    ∀ (kept : α) (l : List α), (∀ y ∈ l, eqb kept y = false) →
      l.Pairwise (fun a b => eqb a b = false) → cppUniqueAux eqb kept l = l := by
  intro kept l
  induction l generalizing kept with
  | nil => intro _ _; rfl
  | cons y ys ih =>
    intro hk hp
    rw [List.pairwise_cons] at hp
    simp only [cppUniqueAux]
    rw [if_neg (by simp [hk y (List.mem_cons_self _ _)])]
    rw [ih y hp.1 hp.2]

lemma cppUnique_eq_self (l : List α)
    (h : l.Pairwise (fun a b => eqb a b = false)) : cppUnique eqb l = l := by
  cases l with
  | nil => rfl
  | cons y ys =>
    rw [List.pairwise_cons] at h
    simp only [cppUnique]
    rw [cppUniqueAux_eq_self eqb y ys h.1 h.2]

lemma cppUniqueAux_pairwise
    (hTransNeg : ∀ a b c, lt b a = false → lt c b = false → lt c a = false)
    (hTransPos : ∀ a b c, lt a b = true → lt b c = true → lt a c = true)
    (hStrict : ∀ a b, lt b a = false → eqb a b = false → lt a b = true) :
    ∀ (kept : α) (l : List α), l.Pairwise (fun a b => lt b a = false) →
      (∀ y ∈ l, lt y kept = false) →
      (cppUniqueAux eqb kept l).Pairwise (fun a b => lt a b = true) ∧
      (∀ y ∈ cppUniqueAux eqb kept l, lt kept y = true) := by
  intro kept l
  induction l generalizing kept with
  | nil => intro _ _; simp [cppUniqueAux]
  | cons y ys ih =>
    intro hp hle
    rw [List.pairwise_cons] at hp
    simp only [cppUniqueAux]
    split_ifs with h
    · apply ih kept hp.2
      intro z hz
      exact hTransNeg kept y z (hle y (List.mem_cons_self _ _)) (hp.1 z hz)
    · have hky : lt kept y = true :=
        hStrict kept y (hle y (List.mem_cons_self _ _)) (by simpa using h)
      obtain ⟨h1, h2⟩ := ih y hp.2 (fun z hz => hp.1 z hz)
      refine ⟨List.pairwise_cons.mpr ⟨fun z hz => h2 z hz, h1⟩, ?_⟩
      intro w hw
      rcases List.mem_cons.mp hw with rfl | hw'
      · exact hky
      · exact hTransPos kept y w hky (h2 w hw')

lemma cppUnique_nodup
    (hIrrefl : ∀ a, lt a a = false)
    (hTransNeg : ∀ a b c, lt b a = false → lt c b = false → lt c a = false)
    (hTransPos : ∀ a b c, lt a b = true → lt b c = true → lt a c = true)
    (hStrict : ∀ a b, lt b a = false → eqb a b = false → lt a b = true)
    (l : List α) (hp : l.Pairwise (fun a b => lt b a = false)) :
    (cppUnique eqb l).Nodup := by
  have hne : ∀ a b : α, lt a b = true → a ≠ b := by
    intro a b hab heq
    subst heq
    rw [hIrrefl] at hab
    cases hab
  cases l with
  | nil => exact List.nodup_nil
  | cons y ys =>
    rw [List.pairwise_cons] at hp
    obtain ⟨h1, h2⟩ := cppUniqueAux_pairwise lt eqb hTransNeg hTransPos hStrict
      y ys hp.2 hp.1
    simp only [cppUnique]
    refine List.Pairwise.cons ?_ (h1.imp ?_)
    · intro z hz
      exact hne y z (h2 z hz)
    · intro a b hab
      exact hne a b hab

end SortUnique

/-! ### Order facts about the two comparators -/

lemma unsignedLong2T.less_iff (a b : unsignedLong2T) :
    a.less b = true ↔
      (a.long0 < b.long0 ∨ (a.long0 = b.long0 ∧ a.long1 < b.long1)) := by
  simp only [unsignedLong2T.less]
  split_ifs with h <;> simp only [decide_eq_true_eq] <;> omega

lemma unsignedLong2T.not_less_iff (a b : unsignedLong2T) :
    a.less b = false ↔
      ¬(a.long0 < b.long0 ∨ (a.long0 = b.long0 ∧ a.long1 < b.long1)) := by
  rw [← unsignedLong2T.less_iff, Bool.not_eq_true]

lemma unsignedLong2T.eqPair_iff (a b : unsignedLong2T) :
    a.eqPair b = true ↔ (a.long0 = b.long0 ∧ a.long1 = b.long1) := by
  simp [unsignedLong2T.eqPair]

lemma unsignedLong2T.eqPair_eq (a b : unsignedLong2T) (h : a.eqPair b = true) :
    a = b := by
  rw [unsignedLong2T.eqPair_iff] at h
  cases a; cases b
  simp_all

lemma unsignedLong2T.less_irrefl (a : unsignedLong2T) : a.less a = false := by
  rw [unsignedLong2T.not_less_iff]; omega

lemma unsignedLong2T.less_transNeg (a b c : unsignedLong2T)
    (h1 : b.less a = false) (h2 : c.less b = false) : c.less a = false := by
  rw [unsignedLong2T.not_less_iff] at h1 h2 ⊢; omega

lemma unsignedLong2T.less_transPos (a b c : unsignedLong2T)
    (h1 : a.less b = true) (h2 : b.less c = true) : a.less c = true := by
  rw [unsignedLong2T.less_iff] at h1 h2 ⊢; omega

lemma unsignedLong2T.less_strict (a b : unsignedLong2T)
    (h1 : b.less a = false) (h2 : a.eqPair b = false) : a.less b = true := by
  rw [unsignedLong2T.not_less_iff] at h1
  rw [unsignedLong2T.less_iff]
  have h3 : ¬(a.long0 = b.long0 ∧ a.long1 = b.long1) := by
    intro hc
    rw [(unsignedLong2T.eqPair_iff a b).mpr hc] at h2
    cases h2
  omega

lemma unsignedLong2T.less_asymm (a b : unsignedLong2T)
    (h : a.less b = true) : b.less a = false := by
  rw [unsignedLong2T.less_iff] at h
  rw [unsignedLong2T.not_less_iff]
  omega

lemma unsignedLong2T.less_of_ne_eqPair (a b : unsignedLong2T)
    (h : a.less b = true) : a.eqPair b = false := by
  rw [unsignedLong2T.less_iff] at h
  rcases hc : a.eqPair b with _ | _
  · rfl
  · rw [unsignedLong2T.eqPair_iff] at hc
    omega

lemma CPointFEM.ptLess_iff (a b : CPointFEM) :
    a.less b = true ↔
      (a.periodIndexToDonor < b.periodIndexToDonor ∨
        (a.periodIndexToDonor = b.periodIndexToDonor ∧ a.globalID < b.globalID)) := by
  simp only [CPointFEM.less]
  split_ifs with h <;> simp only [decide_eq_true_eq] <;> omega

lemma CPointFEM.ptNot_less_iff (a b : CPointFEM) :
    a.less b = false ↔
      ¬(a.periodIndexToDonor < b.periodIndexToDonor ∨
        (a.periodIndexToDonor = b.periodIndexToDonor ∧ a.globalID < b.globalID)) := by
  rw [← CPointFEM.ptLess_iff, Bool.not_eq_true]

lemma CPointFEM.eqKey_iff (a b : CPointFEM) :
    a.eqKey b = true ↔
      (a.globalID = b.globalID ∧ a.periodIndexToDonor = b.periodIndexToDonor) := by
  simp [CPointFEM.eqKey]

lemma CPointFEM.ptLess_irrefl (a : CPointFEM) : a.less a = false := by
  rw [CPointFEM.ptNot_less_iff]; omega

lemma CPointFEM.ptLess_transNeg (a b c : CPointFEM)
    (h1 : b.less a = false) (h2 : c.less b = false) : c.less a = false := by
  rw [CPointFEM.ptNot_less_iff] at h1 h2 ⊢; omega

lemma CPointFEM.ptLess_transPos (a b c : CPointFEM)
    (h1 : a.less b = true) (h2 : b.less c = true) : a.less c = true := by
  rw [CPointFEM.ptLess_iff] at h1 h2 ⊢; omega

lemma CPointFEM.ptLess_strict (a b : CPointFEM)
    (h1 : b.less a = false) (h2 : a.eqKey b = false) : a.less b = true := by
  rw [CPointFEM.ptNot_less_iff] at h1
  rw [CPointFEM.ptLess_iff]
  have h3 : ¬(a.globalID = b.globalID ∧ a.periodIndexToDonor = b.periodIndexToDonor) := by
    intro hc
    rw [(CPointFEM.eqKey_iff a b).mpr hc] at h2
    cases h2
  omega

lemma CPointFEM.ptLess_asymm (a b : CPointFEM)
    (h : a.less b = true) : b.less a = false := by
  rw [CPointFEM.ptLess_iff] at h
  rw [CPointFEM.ptNot_less_iff]
  omega

lemma CPointFEM.eqKey_false_of_less (a b : CPointFEM)
    (h : a.less b = true) : a.eqKey b = false := by
  rw [CPointFEM.ptLess_iff] at h
  rcases hc : a.eqKey b with _ | _
  · rfl
  · rw [CPointFEM.eqKey_iff] at hc
    omega

/-- C9.  The two sort-plus-unique deduplications — `(periodicDonorIndex,
globalID)` sorting/equality for `CPointFEM` and pair sorting/equality for
halo descriptors — are idempotent: on a vector that is already sorted and
free of duplicates (strictly increasing under the respective comparator), a
second pass returns the vector unchanged. -/
theorem C9_dedup_idempotent (ps : List CPointFEM) (hs : List unsignedLong2T)
    (hp : ps.Pairwise (fun a b => a.less b = true))
    (hh : hs.Pairwise (fun a b => a.less b = true)) :
    dedupPoints ps = ps ∧ dedupHalo hs = hs := by
  constructor
  · have hsorted : ps.Pairwise (cppLe CPointFEM.less) :=
      hp.imp (fun h => CPointFEM.ptLess_asymm _ _ h)
    have hsort : cppSort CPointFEM.less ps = ps :=
      List.Sorted.insertionSort_eq hsorted
    rw [dedupPoints, hsort]
    exact cppUnique_eq_self CPointFEM.eqKey ps
      (hp.imp (fun h => CPointFEM.eqKey_false_of_less _ _ h))
  · have hsorted : hs.Pairwise (cppLe unsignedLong2T.less) :=
      hh.imp (fun h => unsignedLong2T.less_asymm _ _ h)
    have hsort : cppSort unsignedLong2T.less hs = hs :=
      List.Sorted.insertionSort_eq hsorted
    rw [dedupHalo, hsort]
    exact cppUnique_eq_self unsignedLong2T.eqPair hs
      (hh.imp (fun h => unsignedLong2T.less_of_ne_eqPair _ _ h))

/-- Concrete already-deduplicated point list for the witness of C9. -/
def ptsW : List CPointFEM :=
  [{ globalID := 1, periodIndexToDonor := -1, coor := [] },
   { globalID := 4, periodIndexToDonor := -1, coor := [] },
   { globalID := 0, periodIndexToDonor := 2, coor := [] }]

/-- Concrete already-deduplicated halo descriptor list for the witness of C9. -/
def halosW : List unsignedLong2T :=
  [{ long0 := 3, long1 := 0 }, { long0 := 3, long1 := 2 }, { long0 := 7, long1 := 0 }]

/-- Witness for C9: both deduplications leave the concrete sorted
duplicate-free vectors `ptsW` and `halosW` unchanged. -/
theorem C9_dedup_idempotent_witness :
    dedupPoints ptsW = ptsW ∧ dedupHalo halosW = halosW :=
  C9_dedup_idempotent ptsW halosW (by decide) (by decide)

/-! ### Binary search and halo discovery (first exchange) -/

/-- Strict comparison of `unsigned long` values, the element comparison used
by `std::binary_search` over the sorted vector `globalElemID`. -/
def natLess (a b : Nat) : Bool := decide (a < b)

/-- Halving step of `std::binary_search` with comparator `lt`, fuelled by
the list length so that the recursion is structural: compare the middle
element, recurse right when it is below `x`, left when `x` is below it, and
report success when neither is below the other. -/
def binSearchAux {α : Type} (lt : α → α → Bool) (x : α) : Nat → List α → Bool
  | 0, _ => false
  | fuel + 1, l =>
    if l.length = 0 then false
    else
      let mid := l.length / 2
      let m := l.getD mid x
      if lt m x then binSearchAux lt x fuel (l.drop (mid + 1))
      else if lt x m then binSearchAux lt x fuel (l.take mid)
      else true

/-- Model of `std::binary_search` on a sorted range with comparator `lt`. -/
def binSearch {α : Type} (lt : α → α → Bool) (l : List α) (x : α) : Bool :=
  binSearchAux lt x l.length l

/-- One element as reconstructed from the receive buffers of the first
exchange (the fields packed at lines 236-256 and decoded at lines 487-510
and 548-592 of the source). -/
structure RecvElem where
  VTK_Type : Nat
  nPolyGrid : Nat
  nPolySol : Nat
  nDOFsGrid : Nat
  nDOFsSol : Nat
  nFaces : Nat
  jacConstant : Bool
  elemIDGlobal : Nat
  offsetDOFsSolGlobal : Nat
  nodeIDsGrid : List Nat
  faceNeighborIDs : List Int
  facePeriodicIndex : List Int
  faceJacConstant : List Bool
deriving DecidableEq, Repr, Inhabited

/-- Per-face body of the halo-discovery loop (lines 495-507): when the
neighbor global element ID is not −1, set `neighborIsInternal` by binary
search of the owned-ID list only when the face's periodic index is −1, and
record the descriptor (neighbor ID, periodic index + 1) when the neighbor
is not internal. -/
def faceHaloDescriptor (globalElemID : List Nat) (nb per : Int) :
    Option unsignedLong2T :=
  if nb ≠ -1 then
    let neighborIsInternal : Bool :=
      if per = -1 then binSearch natLess globalElemID nb.toNat else false
    if neighborIsInternal then none
    else some { long0 := nb.toNat, long1 := (per + 1).toNat }
  else none

/-- The raw halo-descriptor list collected by the loop at lines 487-510:
for every received element, every face contributes its descriptor when the
face test records one. -/
def haloElementsRaw (globalElemID : List Nat) (elems : List RecvElem) :
    List unsignedLong2T :=
  elems.flatMap fun e =>
    (e.faceNeighborIDs.zip e.facePeriodicIndex).filterMap fun fp =>
      faceHaloDescriptor globalElemID fp.1 fp.2

instance : IsTotal unsignedLong2T (cppLe unsignedLong2T.less) := by
  constructor
  intro a b
  rcases h : a.less b with _ | _
  · right; exact h
  · left; exact unsignedLong2T.less_asymm a b h

instance : IsTrans unsignedLong2T (cppLe unsignedLong2T.less) := by
  constructor
  intro a b c h1 h2
  exact unsignedLong2T.less_transNeg a b c h1 h2

instance : IsTotal CPointFEM (cppLe CPointFEM.less) := by
  constructor
  intro a b
  rcases h : a.less b with _ | _
  · right; exact h
  · left; exact CPointFEM.ptLess_asymm a b h

instance : IsTrans CPointFEM (cppLe CPointFEM.less) := by
  constructor
  intro a b c h1 h2
  exact CPointFEM.ptLess_transNeg a b c h1 h2

instance : IsTotal Nat (cppLe natLess) := by
  constructor
  intro a b
  simp only [cppLe, natLess, decide_eq_false_iff_not, not_lt]
  omega

instance : IsTrans Nat (cppLe natLess) := by
  constructor
  intro a b c h1 h2
  simp only [cppLe, natLess, decide_eq_false_iff_not, not_lt] at h1 h2 ⊢
  omega

lemma cppSort_pairwise {α : Type} (lt : α → α → Bool)
    [IsTotal α (cppLe lt)] [IsTrans α (cppLe lt)] (l : List α) :
    (cppSort lt l).Pairwise (fun a b => lt b a = false) :=
  (List.sorted_insertionSort (cppLe lt) l).imp (fun h => h)

lemma mem_cppSort {α : Type} (lt : α → α → Bool) (l : List α) (x : α) :
    x ∈ cppSort lt l ↔ x ∈ l :=
  List.mem_insertionSort (cppLe lt)

lemma mem_dedupHalo (l : List unsignedLong2T) (d : unsignedLong2T) :
    d ∈ dedupHalo l ↔ d ∈ l := by
  rw [dedupHalo,
    mem_cppUnique unsignedLong2T.eqPair unsignedLong2T.eqPair_eq,
    mem_cppSort]

lemma dedupHalo_nodup (l : List unsignedLong2T) : (dedupHalo l).Nodup := by
  rw [dedupHalo]
  exact cppUnique_nodup unsignedLong2T.less unsignedLong2T.eqPair
    unsignedLong2T.less_irrefl unsignedLong2T.less_transNeg
    unsignedLong2T.less_transPos unsignedLong2T.less_strict
    (cppSort unsignedLong2T.less l)
    (cppSort_pairwise unsignedLong2T.less l)

/-- C2.  During local assembly a halo descriptor (neighbor global element
ID, face periodic index + 1) is recorded for a face exactly when the
neighbor ID is not −1 and it is not the case that the periodic index is −1
and the neighbor ID is found by binary search in the sorted owned-ID list;
the raw list collects exactly the per-face records over all received owned
elements; and the subsequent sort+unique deduplication preserves membership
(so the same neighbor under two periodic transformations remains two
distinct entries) while removing duplicates. -/
theorem C2_halo_descriptor_recording (g : List Nat) (elems : List RecvElem) :
    (∀ nb per d, faceHaloDescriptor g nb per = some d ↔
       (nb ≠ -1 ∧ ¬(per = -1 ∧ binSearch natLess g nb.toNat = true) ∧
         d = { long0 := nb.toNat, long1 := (per + 1).toNat })) ∧
    (∀ d, d ∈ haloElementsRaw g elems ↔
       ∃ e ∈ elems, ∃ fp ∈ e.faceNeighborIDs.zip e.facePeriodicIndex,
         faceHaloDescriptor g fp.1 fp.2 = some d) ∧
    (∀ d, d ∈ dedupHalo (haloElementsRaw g elems) ↔ d ∈ haloElementsRaw g elems) ∧
    (dedupHalo (haloElementsRaw g elems)).Nodup := by
  refine ⟨?_, ?_, ?_, ?_⟩
  · intro nb per d
    by_cases h1 : nb = (-1 : Int)
    · simp [faceHaloDescriptor, h1]
    · by_cases h2 : per = (-1 : Int)
      · by_cases h3 : binSearch natLess g nb.toNat = true
        · simp [faceHaloDescriptor, h1, h2, h3]
        · have h3f : binSearch natLess g nb.toNat = false := by
            simpa using h3
          simp [faceHaloDescriptor, h1, h2, h3f, @eq_comm _ d]
      · simp [faceHaloDescriptor, h1, h2, @eq_comm _ d]
  · intro d
    simp [haloElementsRaw, List.mem_flatMap, List.mem_filterMap]
  · intro d
    exact mem_dedupHalo _ d
  · exact dedupHalo_nodup _

/-! ### Step 2 allocation: global-to-local element maps and array layout -/

/-- Lines 530-531: the loop `mapGlobalElemIDToInd[globalElemID[i]] = i`,
built here by walking the sorted owned-ID list with the index of the head. -/
def buildElemMap (start : Nat) : List Nat → List (Nat × Nat)
  | [] => []
  | g :: gs => (g, start) :: buildElemMap (start + 1) gs

/-- Lines 533-534: the loop `mapGlobalHaloElemToInd[haloElements[i]] =
nVolElemOwned + i`, built by walking the deduplicated halo list with the
slot index of the head. -/
def buildHaloMap (start : Nat) : List unsignedLong2T → List (unsignedLong2T × Nat)
  | [] => []
  | h :: hs => (h, start) :: buildHaloMap (start + 1) hs

/-- Lookup in the modelled `std::map` keyed by halo descriptors. -/
def mapFindUL2T (m : List (unsignedLong2T × Nat)) (k : unsignedLong2T) : Option Nat :=
  (m.find? fun e => e.1 == k).map Prod.snd

/-- Lookup in the modelled `std::map` keyed by global element IDs. -/
def mapFindNat (m : List (Nat × Nat)) (k : Nat) : Option Nat :=
  (m.find? fun e => e.1 == k).map Prod.snd

/-- Lines 527-538: the owned element count, the allocated size
`nVolElemTot` of the `volElem` array, and the halo-descriptor map. -/
def step2Allocation (globalElemID : List Nat) (haloElements : List unsignedLong2T) :
    Nat × Nat × List (unsignedLong2T × Nat) :=
  (globalElemID.length, globalElemID.length + haloElements.length,
    buildHaloMap globalElemID.length haloElements)

lemma buildHaloMap_length (halos : List unsignedLong2T) :
    ∀ start, (buildHaloMap start halos).length = halos.length := by
  induction halos with
  | nil => intro start; rfl
  | cons h hs ih => intro start; simp [buildHaloMap, ih]

lemma buildHaloMap_slots (halos : List unsignedLong2T) :
    ∀ start, ∀ e ∈ buildHaloMap start halos, start ≤ e.2 := by
  induction halos with
  | nil => intro start e he; cases he
  | cons h hs ih =>
    intro start e he
    rcases List.mem_cons.mp he with h1 | h1
    · subst h1; exact Nat.le_refl _
    · exact Nat.le_of_succ_le (ih (start + 1) e h1)

lemma buildHaloMap_find (halos : List unsignedLong2T) (hnd : halos.Nodup) :
    ∀ start i, i < halos.length →
      mapFindUL2T (buildHaloMap start halos) (halos.getD i default) =
        some (start + i) := by
  induction halos with
  | nil => intro start i hi; cases hi
  | cons h hs ih =>
    rw [List.nodup_cons] at hnd
    intro start i hi
    cases i with
    | zero =>
      simp [buildHaloMap, mapFindUL2T, List.find?_cons]
    | succ n =>
      have hn : n < hs.length := by simpa using hi
      have hk : hs.getD n default ∈ hs := by
        rw [List.getD_eq_getElem hs default hn]
        exact List.getElem_mem hn
      have hne : (h == hs.getD n default) = false := by
        rw [beq_eq_false_iff_ne]
        intro hc
        exact hnd.1 (hc ▸ hk)
      have := ih hnd.2 (start + 1) n hn
      simp only [buildHaloMap, mapFindUL2T, List.find?_cons, List.getD_cons_succ] at this ⊢
      rw [hne]
      rw [show start + (n + 1) = start + 1 + n by omega]
      exact this

/-- C3.  After halo discovery the volume-element array is allocated with
size `nVolElemOwned + (number of deduplicated halo descriptors)`, and the
i-th descriptor of the sorted deduplicated halo list is mapped by
`mapGlobalHaloElemToInd` to array slot `nVolElemOwned + i`; every mapped
halo slot lies at or beyond `nVolElemOwned`, after all owned slots. -/
theorem C3_halo_slots_after_owned (g : List Nat) (rawHalos : List unsignedLong2T)
    (i : Nat) (hi : i < (dedupHalo rawHalos).length) :
    (step2Allocation g (dedupHalo rawHalos)).2.1 =
        g.length + (dedupHalo rawHalos).length ∧
    mapFindUL2T (step2Allocation g (dedupHalo rawHalos)).2.2
        ((dedupHalo rawHalos).getD i default) = some (g.length + i) ∧
    (∀ e ∈ (step2Allocation g (dedupHalo rawHalos)).2.2, g.length ≤ e.2) := by
  refine ⟨rfl, ?_, ?_⟩
  · exact buildHaloMap_find (dedupHalo rawHalos) (dedupHalo_nodup rawHalos)
      g.length i hi
  · exact buildHaloMap_slots (dedupHalo rawHalos) g.length

/-- Concrete owned-ID list for the witness of C3. -/
def gW : List Nat := [4, 9]

/-- Concrete raw halo-descriptor list (with one duplicate) for the witness
of C3. -/
def rawHalosW : List unsignedLong2T :=
  [{ long0 := 11, long1 := 0 }, { long0 := 7, long1 := 3 }, { long0 := 11, long1 := 0 }]

/-- Witness for C3: with two owned elements and two deduplicated halo
descriptors, the array size is 4 and descriptor 0 is mapped to slot 2. -/
theorem C3_halo_slots_after_owned_witness :
    (step2Allocation gW (dedupHalo rawHalosW)).2.1 =
        gW.length + (dedupHalo rawHalosW).length ∧
    mapFindUL2T (step2Allocation gW (dedupHalo rawHalosW)).2.2
        ((dedupHalo rawHalosW).getD 0 default) = some (gW.length + 0) ∧
    (∀ e ∈ (step2Allocation gW (dedupHalo rawHalosW)).2.2, gW.length ≤ e.2) :=
  C3_halo_slots_after_owned gW rawHalosW 0 (by decide)

/-! ### The periodic rigid-body transformation (lines 1165-1211) -/

/-- A 3-component coordinate vector. -/
structure Vec3 where
  x : ℚ
  y : ℚ
  z : ℚ
deriving DecidableEq, Repr, Inhabited

/-- Componentwise sum. -/
def Vec3.add (a b : Vec3) : Vec3 := ⟨a.x + b.x, a.y + b.y, a.z + b.z⟩

/-- Componentwise difference. -/
def Vec3.sub (a b : Vec3) : Vec3 := ⟨a.x - b.x, a.y - b.y, a.z - b.z⟩

/-- A 3-by-3 matrix with rational entries. -/
structure Mat3 where
  m00 : ℚ
  m01 : ℚ
  m02 : ℚ
  m10 : ℚ
  m11 : ℚ
  m12 : ℚ
  m20 : ℚ
  m21 : ℚ
  m22 : ℚ
deriving DecidableEq, Repr, Inhabited

/-- Matrix product. -/
def Mat3.mul (a b : Mat3) : Mat3 :=
  { m00 := a.m00 * b.m00 + a.m01 * b.m10 + a.m02 * b.m20,
    m01 := a.m00 * b.m01 + a.m01 * b.m11 + a.m02 * b.m21,
    m02 := a.m00 * b.m02 + a.m01 * b.m12 + a.m02 * b.m22,
    m10 := a.m10 * b.m00 + a.m11 * b.m10 + a.m12 * b.m20,
    m11 := a.m10 * b.m01 + a.m11 * b.m11 + a.m12 * b.m21,
    m12 := a.m10 * b.m02 + a.m11 * b.m12 + a.m12 * b.m22,
    m20 := a.m20 * b.m00 + a.m21 * b.m10 + a.m22 * b.m20,
    m21 := a.m20 * b.m01 + a.m21 * b.m11 + a.m22 * b.m21,
    m22 := a.m20 * b.m02 + a.m21 * b.m12 + a.m22 * b.m22 }

/-- Matrix transpose. -/
def Mat3.transpose (a : Mat3) : Mat3 :=
  { m00 := a.m00, m01 := a.m10, m02 := a.m20,
    m10 := a.m01, m11 := a.m11, m12 := a.m21,
    m20 := a.m02, m21 := a.m12, m22 := a.m22 }

/-- Matrix-vector product. -/
def Mat3.mulVec (a : Mat3) (v : Vec3) : Vec3 :=
  ⟨a.m00 * v.x + a.m01 * v.y + a.m02 * v.z,
   a.m10 * v.x + a.m11 * v.y + a.m12 * v.z,
   a.m20 * v.x + a.m21 * v.y + a.m22 * v.z⟩

/-- The rotation matrix computed at lines 1184-1195 of the source from the
cosines and sines of the marker's three rotation angles (the source computes
`cosTheta = cos(theta)` and so on once; here those six values are taken as
parameters, so the identity below holds for the exact trigonometric values
in particular). -/
def rotMatrixCode (cosTheta sinTheta cosPhi sinPhi cosPsi sinPsi : ℚ) : Mat3 :=
  { m00 := cosPhi * cosPsi,
    m01 := cosPhi * sinPsi,
    m02 := -sinPhi,
    m10 := sinTheta * sinPhi * cosPsi - cosTheta * sinPsi,
    m11 := sinTheta * sinPhi * sinPsi + cosTheta * cosPsi,
    m12 := sinTheta * cosPhi,
    m20 := cosTheta * sinPhi * cosPsi + sinTheta * sinPsi,
    m21 := cosTheta * sinPhi * sinPsi - sinTheta * cosPsi,
    m22 := cosTheta * cosPhi }

/-- Lines 1170-1172: the constant translation `center - trans` added after
the rotation. -/
def periodicTranslationCode (center trans : Vec3) : Vec3 :=
  ⟨center.x - trans.x, center.y - trans.y, center.z - trans.z⟩

/-- Lines 1198-1211: the transformation of one halo point coordinate.  The
differences to the rotation center are formed (with `dz = 0` when `nDim` is
not 3), the rotation matrix is applied and the translation added. -/
def transformHaloCoor (nDim : Nat) (r : Mat3) (translation center c : Vec3) : Vec3 :=
  ⟨r.m00 * (c.x - center.x) + r.m01 * (c.y - center.y)
      + r.m02 * (if nDim = 3 then c.z - center.z else 0) + translation.x,
   r.m10 * (c.x - center.x) + r.m11 * (c.y - center.y)
      + r.m12 * (if nDim = 3 then c.z - center.z else 0) + translation.y,
   r.m20 * (c.x - center.x) + r.m21 * (c.y - center.y)
      + r.m22 * (if nDim = 3 then c.z - center.z else 0) + translation.z⟩

/-- The full coordinate update the source applies to a halo point of a
periodic-index group. -/
def applyPeriodicTransformCode (nDim : Nat)
    (cosTheta sinTheta cosPhi sinPhi cosPsi sinPsi : ℚ) (center trans c : Vec3) : Vec3 :=
  transformHaloCoor nDim (rotMatrixCode cosTheta sinTheta cosPhi sinPhi cosPsi sinPsi)
    (periodicTranslationCode center trans) center c

/-- Rotation about the x axis with cosine `c` and sine `s`, as stated by the
claim (spec-side definition). -/
def rotXMat (c s : ℚ) : Mat3 :=
  { m00 := 1, m01 := 0, m02 := 0,
    m10 := 0, m11 := c, m12 := -s,
    m20 := 0, m21 := s, m22 := c }

/-- Rotation about the y axis (spec-side definition). -/
def rotYMat (c s : ℚ) : Mat3 :=
  { m00 := c, m01 := 0, m02 := s,
    m10 := 0, m11 := 1, m12 := 0,
    m20 := -s, m21 := 0, m22 := c }

/-- Rotation about the z axis (spec-side definition). -/
def rotZMat (c s : ℚ) : Mat3 :=
  { m00 := c, m01 := -s, m02 := 0,
    m10 := s, m11 := c, m12 := 0,
    m20 := 0, m21 := 0, m22 := 1 }

/-- The claim's rotation `R`: composition about the x axis, then the y axis,
then the z axis (spec-side definition). -/
def composedRotation (cosTheta sinTheta cosPhi sinPhi cosPsi sinPsi : ℚ) : Mat3 :=
  (rotZMat cosPsi sinPsi).mul ((rotYMat cosPhi sinPhi).mul (rotXMat cosTheta sinTheta))

/-- C5.  In the 3-D case the coordinate update applied to every halo point
of a periodic-index group equals `Rᵀ·(c − center) + (center − trans)`, where
`R` is the rotation composed about the x, then y, then z axes by the
marker's angles, `center` the rotation center and `trans` the configured
periodic translation: the rotation is applied in the inverse (donor-to-here)
sense and the added translation is `center − trans`. -/
theorem C5_periodic_transform_is_inverse_rotation
    (cosTheta sinTheta cosPhi sinPhi cosPsi sinPsi : ℚ) (center trans c : Vec3) :
    applyPeriodicTransformCode 3 cosTheta sinTheta cosPhi sinPhi cosPsi sinPsi
        center trans c =
      Vec3.add
        ((composedRotation cosTheta sinTheta cosPhi sinPhi cosPsi sinPsi).transpose.mulVec
          (c.sub center))
        (center.sub trans) := by
  simp only [applyPeriodicTransformCode, transformHaloCoor, rotMatrixCode,
    periodicTranslationCode, composedRotation, rotXMat, rotYMat, rotZMat,
    Mat3.mul, Mat3.transpose, Mat3.mulVec, Vec3.add, Vec3.sub,
    if_pos rfl]
  refine Vec3.mk.injEq .. ▸ ?_
  norm_num
  refine ⟨by ring, by ring, by ring⟩

/-! ### Outcomes, the halo detail round-trip, and the final translation -/

/-- Outcome of a constructor phase: a value, or a diagnostic message
followed by process termination (the `cout` + `exit(EXIT_FAILURE)` /
`MPI_Abort` pattern of the source). -/
inductive FemOutcome (α : Type) where
  | ok : α → FemOutcome α
  | abort : String → FemOutcome α
deriving Repr

/-- Whether an outcome is the diagnostic-and-abort case. -/
def FemOutcome.isAbort {α : Type} : FemOutcome α → Bool
  | .ok _ => false
  | .abort _ => true

/-- The fields of an element of the original partitioning that the owning
rank reads at lines 834-847 (`geometry->elem[locElemInd]`). -/
structure GeomElemData where
  VTK_Type : Nat
  nPolyGrid : Nat
  nPolySol : Nat
  nDOFsGrid : Nat
  nDOFsSol : Nat
  nFaces : Nat
  color : Nat
  nodeIDs : List Nat
deriving DecidableEq, Repr, Inhabited

/-- The reply assembled by the owning rank for one halo request: the echoed
request fields and the element data. -/
structure HaloReply where
  globalElemID : Int
  perIndex : Int
  callerLocalInd : Int
  elemData : GeomElemData
deriving DecidableEq, Repr, Inhabited

/-- Lines 809-847: the owning rank processes one received halo request
(global element ID, periodic index, requester slot index).  The global ID is
translated by subtracting `starting_node[rank]`; when the resulting index is
negative or not below `npoint_procs[rank]` a diagnostic is printed and the
run aborted, otherwise the data of `elem[locElemInd]` is packed into the
reply together with the echoed request fields. -/
def processHaloRequest (startingNode npointProcs : Int) (elems : List GeomElemData)
    (reqGlobalID reqPerIndex reqLocalInd : Int) : FemOutcome HaloReply :=
  if reqGlobalID - startingNode < 0 ∨ reqGlobalID - startingNode ≥ npointProcs then
    .abort "Invalid local element ID in function CMeshFEM::CMeshFEM"
  else
    .ok { globalElemID := reqGlobalID, perIndex := reqPerIndex,
          callerLocalInd := reqLocalInd,
          elemData := elems.getD (reqGlobalID - startingNode).toNat default }

/-- C6.  In the halo detail round-trip a request whose global element ID
translates to a local index outside the owning rank's valid local range
(negative, or at least the rank's local element count) makes the rank emit a
diagnostic and abort the run, and a request inside the valid range is
answered normally with the element's data and the echoed request fields. -/
theorem C6_halo_request_range_check (startingNode npointProcs : Int)
    (elems : List GeomElemData) (gid per lind : Int) :
    ((processHaloRequest startingNode npointProcs elems gid per lind).isAbort = true ↔
      (gid - startingNode < 0 ∨ gid - startingNode ≥ npointProcs)) ∧
    (0 ≤ gid - startingNode → gid - startingNode < npointProcs →
      processHaloRequest startingNode npointProcs elems gid per lind =
        .ok { globalElemID := gid, perIndex := per, callerLocalInd := lind,
              elemData := elems.getD (gid - startingNode).toNat default }) := by
  constructor
  · simp only [processHaloRequest]
    split_ifs with h
    · simpa [FemOutcome.isAbort] using h
    · simp only [FemOutcome.isAbort]
      simp only [not_or, not_lt] at h
      constructor
      · intro hc; cases hc
      · intro hc; omega
  · intro h1 h2
    simp only [processHaloRequest]
    rw [if_neg (by omega)]

/-- Witness for C6: with `starting_node = 4` and a local count of 2, the
request for global element 5 is answered normally and the request for
global element 9 aborts. -/
theorem C6_halo_request_range_check_witness :
    (processHaloRequest 4 2 [default, default] 5 (-1) 7 =
      .ok { globalElemID := 5, perIndex := -1, callerLocalInd := 7,
            elemData := default }) ∧
    (processHaloRequest 4 2 [default, default] 9 (-1) 7).isAbort = true := by
  constructor
  · exact (C6_halo_request_range_check 4 2 [default, default] 5 (-1) 7).2
      (by decide) (by decide)
  · exact (C6_halo_request_range_check 4 2 [default, default] 9 (-1) 7).1.mpr
      (by decide)

/-- The volume element record `CVolumeElementFEM`, restricted to the fields
the constructor fills (lines 560-591 for owned elements, 991-1010 for
halos). -/
structure CVolumeElementFEM where
  elemIsOwned : Bool
  rankOriginal : Int
  periodIndexToDonor : Int
  VTK_Type : Nat
  nPolyGrid : Nat
  nPolySol : Nat
  nDOFsGrid : Nat
  nDOFsSol : Nat
  nFaces : Nat
  jacConstant : Bool
  elemIDGlobal : Nat
  offsetDOFsSolGlobal : Nat
  nodeIDsGrid : List Nat
deriving DecidableEq, Repr, Inhabited

/-- The surface element record `CSurfaceElementFEM`, restricted to the
fields the constructor fills (lines 612-625). -/
structure CSurfaceElementFEM where
  VTK_Type : Nat
  nPolyGrid : Nat
  nDOFsGrid : Nat
  volElemID : Nat
  boundElemIDGlobal : Nat
  nodeIDsGrid : List Nat
deriving DecidableEq, Repr, Inhabited

/-- Unchecked dereference `iterator->second` of a `map::find` result.  The
source performs it without comparing the iterator against `end()`; on a
missing key that dereference is undefined behaviour in C++.  The model
returns 0 in that case so that the function is total, mirroring that the
source continues execution on this path instead of diagnosing the miss. -/
def derefSecond (o : Option Nat) : Nat := o.getD 0

/-- Lines 1254-1263: the final translation of every volume element's node-ID
list through `mapGlobalPointIDToInd` under the key (node ID, element
periodic index + 1).  The loop contains no check of the lookup result and no
error branch; the outcome type records that no diagnostic abort can be
produced here. -/
def translateVolElemConnectivity (mapPts : List (unsignedLong2T × Nat))
    (volElem : List CVolumeElementFEM) : FemOutcome (List CVolumeElementFEM) :=
  .ok <| volElem.map fun e =>
    { e with nodeIDsGrid := e.nodeIDsGrid.map fun g =>
        derefSecond (mapFindUL2T mapPts
          { long0 := g, long1 := (e.periodIndexToDonor + 1).toNat }) }

/-- Lines 1083-1101: translation of the boundary connectivities — the owning
volume element through `mapGlobalElemIDToInd`, each node ID through
`mapGlobalPointIDToInd` under the key (node ID, 0) — likewise with no check
of either lookup result and no error branch. -/
def translateSurfConnectivity (mapElem : List (Nat × Nat))
    (mapPts : List (unsignedLong2T × Nat)) (surf : List CSurfaceElementFEM) :
    FemOutcome (List CSurfaceElementFEM) :=
  .ok <| surf.map fun s =>
    { s with
      volElemID := derefSecond (mapFindNat mapElem s.volElemID),
      nodeIDsGrid := s.nodeIDsGrid.map fun g =>
        derefSecond (mapFindUL2T mapPts { long0 := g, long1 := 0 }) }

/-- Concrete point map for the counterexample of C1: only node 3 with
periodic key 0 is present. -/
def mapPtsCx : List (unsignedLong2T × Nat) := [({ long0 := 3, long1 := 0 }, 0)]

/-- Concrete volume element for the counterexample of C1: it references node
7, which is missing from `mapPtsCx`. -/
def volElemCx : CVolumeElementFEM :=
  { elemIsOwned := true, rankOriginal := 0, periodIndexToDonor := -1,
    VTK_Type := 3, nPolyGrid := 1, nPolySol := 1, nDOFsGrid := 2, nDOFsSol := 2,
    nFaces := 2, jacConstant := false, elemIDGlobal := 0, offsetDOFsSolGlobal := 0,
    nodeIDsGrid := [3, 7] }

/-- Counterexample to C1 as stated: node ID 7 of `volElemCx` misses the
final map (its key is not found), yet the final translation does not abort
and produces no diagnostic — it continues with an unchecked value. -/
theorem C1_final_translation_miss_not_fatal_counterexample :
    mapFindUL2T mapPtsCx
        { long0 := 7, long1 := (volElemCx.periodIndexToDonor + 1).toNat } = none ∧
    7 ∈ volElemCx.nodeIDsGrid ∧
    (translateVolElemConnectivity mapPtsCx [volElemCx]).isAbort = false := by
  decide

/-- C1 (amended).  The final translation loops for volume elements and for
boundary faces contain no miss check: for every map and every input they
return normally (never the diagnostic-abort outcome) and produce one output
record per input record, so a key missing from the final
(globalID, periodicIndex+1) → local-index map is not detected — the lookup
result is dereferenced unchecked instead of being fatal. -/
theorem C1_final_translation_unchecked (mapElem : List (Nat × Nat))
    (mapPts : List (unsignedLong2T × Nat))
    (ve : List CVolumeElementFEM) (surf : List CSurfaceElementFEM) :
    (translateVolElemConnectivity mapPts ve).isAbort = false ∧
    (translateSurfConnectivity mapElem mapPts surf).isAbort = false ∧
    (∃ out, translateVolElemConnectivity mapPts ve = .ok out ∧
      out.length = ve.length) ∧
    (∃ out2, translateSurfConnectivity mapElem mapPts surf = .ok out2 ∧
      out2.length = surf.length) := by
  refine ⟨rfl, rfl, ⟨_, rfl, by simp [translateVolElemConnectivity]⟩,
    ⟨_, rfl, by simp [translateSurfConnectivity]⟩⟩

/-! ### The non-periodic pass of periodic reconciliation (lines 1032-1069) -/

/-- `SHRT_MAX`, the invalid periodic-index marker of line 1040. -/
def InvalidPerInd : Int := 32767

/-- Line 1039: the invalid point-ID marker `Global_nPoint + 10`. -/
def InvalidPointID (globalNPoint : Nat) : Nat := globalNPoint + 10

/-- Overwriting a halo point with the invalid markers (lines 1051-1052). -/
def markPointInvalid (invalidID : Nat) (p : CPointFEM) : CPointFEM :=
  { p with globalID := invalidID, periodIndexToDonor := InvalidPerInd }

/-- The conditional marking applied to one non-periodic halo point. -/
def markIfFound (mesh : List CPointFEM) (invalidID : Nat) (p : CPointFEM) : CPointFEM :=
  if binSearch CPointFEM.less mesh p then markPointInvalid invalidID p else p

/-- Whether a point carries the invalid periodic-index marker. -/
def isInvalidPoint (p : CPointFEM) : Bool := p.periodIndexToDonor == InvalidPerInd

/-- Whether a point is non-periodic. -/
def isNonPeriodic (p : CPointFEM) : Bool := p.periodIndexToDonor == -1

/-- Lines 1046-1055: the marking loop of the non-periodic pass.  Walking the
deduplicated halo points in order, the loop stops at the first point whose
periodic index is not −1; each earlier point found in `meshPoints` by binary
search under the `CPointFEM` ordering is overwritten with the invalid
markers, and the number of invalidated points is counted (the source
decrements `nHaloPoints`). -/
def invalidatePass (mesh : List CPointFEM) (invalidID : Nat) :
    List CPointFEM → List CPointFEM × Nat
  | [] => ([], 0)
  | p :: rest =>
    if p.periodIndexToDonor ≠ -1 then (p :: rest, 0)
    else
      let r := invalidatePass mesh invalidID rest
      if binSearch CPointFEM.less mesh p then
        (markPointInvalid invalidID p :: r.1, r.2 + 1)
      else (p :: r.1, r.2)

/-- Lines 1046-1069: the complete non-periodic pass.  After the marking loop
the halo vector is sorted again (the invalid markers sort last) and resized
to the decreased count, and the loop at lines 1065-1069 appends the leading
non-periodic points of the result to `meshPoints`, stopping at the first
periodic point.  Returns (the new `meshPoints`, the resized `haloPoints`). -/
def resolveNonPeriodic (mesh : List CPointFEM) (globalNPoint : Nat)
    (halo : List CPointFEM) : List CPointFEM × List CPointFEM :=
  let m := invalidatePass mesh (InvalidPointID globalNPoint) halo
  let kept := (cppSort CPointFEM.less m.1).take (halo.length - m.2)
  (mesh ++ kept.takeWhile isNonPeriodic, kept)

lemma invalidatePass_split (mesh : List CPointFEM) (invalidID : Nat) :
    ∀ (A B : List CPointFEM), (∀ p ∈ A, p.periodIndexToDonor = -1) →
      (∀ p ∈ B, p.periodIndexToDonor ≠ -1) →
      invalidatePass mesh invalidID (A ++ B) =
        (A.map (markIfFound mesh invalidID) ++ B,
          A.countP (fun p => binSearch CPointFEM.less mesh p)) := by
  intro A
  induction A with
  | nil =>
    intro B _ hB
    cases B with
    | nil => rfl
    | cons b bs =>
      simp only [List.nil_append, invalidatePass]
      rw [if_pos (hB b (List.mem_cons_self _ _))]
      simp
  | cons a A' ih =>
    intro B hA hB
    have ha : a.periodIndexToDonor = -1 := hA a (List.mem_cons_self _ _)
    simp only [List.cons_append, invalidatePass]
    rw [if_neg (by simp [ha])]
    simp only [List.append_eq]
    rw [ih B (fun p hp => hA p (List.mem_cons_of_mem _ hp)) hB]
    by_cases hf : binSearch CPointFEM.less mesh a = true
    · rw [if_pos hf]
      simp [markIfFound, hf, List.countP_cons]
    · have hf' : binSearch CPointFEM.less mesh a = false := by simpa using hf
      rw [if_neg (by simp [hf'])]
      simp [markIfFound, hf', List.countP_cons]

lemma dropWhile_nonperiodic (l : List CPointFEM)
    (hs : l.Pairwise (fun a b => a.less b = true))
    (hge : ∀ p ∈ l, -1 ≤ p.periodIndexToDonor) :
    ∀ p ∈ l.dropWhile isNonPeriodic, p.periodIndexToDonor ≠ -1 := by
  induction l with
  | nil => intro p hp; cases hp
  | cons x xs ih =>
    rw [List.pairwise_cons] at hs
    intro p hp
    by_cases hx : isNonPeriodic x = true
    · rw [List.dropWhile_cons_of_pos hx] at hp
      exact ih hs.2 (fun q hq => hge q (List.mem_cons_of_mem _ hq)) p hp
    · rw [List.dropWhile_cons_of_neg hx] at hp
      have hxne : x.periodIndexToDonor ≠ -1 := by simpa [isNonPeriodic] using hx
      rcases List.mem_cons.mp hp with rfl | hp'
      · exact hxne
      · have hlx := hs.1 p hp'
        rw [CPointFEM.ptLess_iff] at hlx
        have hgex : -1 ≤ x.periodIndexToDonor := hge x (List.mem_cons_self _ _)
        omega

lemma sorted_filter_decomposition (P : CPointFEM → Bool) :
    ∀ (l : List CPointFEM), l.Pairwise (fun a b => b.less a = false) →
      (∀ a b, a ∈ l → b ∈ l → P a = true → P b = false → b.less a = true) →
      l = l.filter (fun p => !(P p)) ++ l.filter P := by
  intro l
  induction l with
  | nil => intro _ _; rfl
  | cons x xs ih =>
    intro hs hforbid
    rw [List.pairwise_cons] at hs
    by_cases hx : P x = true
    · have hall : ∀ p ∈ xs, P p = true := by
        intro p hp
        by_contra hpf
        have hpf' : P p = false := by simpa using hpf
        have hc := hforbid x p (List.mem_cons_self _ _) (List.mem_cons_of_mem _ hp) hx hpf'
        rw [hs.1 p hp] at hc
        cases hc
      rw [List.filter_cons_of_neg (by simp [hx]), List.filter_cons_of_pos (by simp [hx])]
      have h1 : xs.filter (fun p => !(P p)) = [] := by
        rw [List.filter_eq_nil_iff]
        intro a ha
        simp [hall a ha]
      have h2 : xs.filter P = xs := List.filter_eq_self.mpr hall
      rw [h1, h2]
      rfl
    · have hx' : P x = false := by simpa using hx
      rw [List.filter_cons_of_pos (by simp [hx']), List.filter_cons_of_neg (by simp [hx'])]
      have hrec := ih hs.2 (fun a b ha hb => hforbid a b
        (List.mem_cons_of_mem _ ha) (List.mem_cons_of_mem _ hb))
      rw [List.cons_append, ← hrec]

lemma sorted_takeWhile_eq_filter (Q : CPointFEM → Bool) :
    ∀ (l : List CPointFEM), l.Pairwise (fun a b => b.less a = false) →
      (∀ a b, a ∈ l → b ∈ l → b.less a = false → Q b = true → Q a = true) →
      l.takeWhile Q = l.filter Q := by
  intro l
  induction l with
  | nil => intro _ _; rfl
  | cons x xs ih =>
    intro hs hcompat
    rw [List.pairwise_cons] at hs
    by_cases hx : Q x = true
    · rw [List.takeWhile_cons_of_pos hx, List.filter_cons_of_pos (by simp [hx])]
      rw [ih hs.2 (fun a b ha hb => hcompat a b
        (List.mem_cons_of_mem _ ha) (List.mem_cons_of_mem _ hb))]
    · have hx' : Q x = false := by simpa using hx
      rw [List.takeWhile_cons_of_neg (by simp [hx']),
        List.filter_cons_of_neg (by simp [hx'])]
      have hnil : xs.filter Q = [] := by
        rw [List.filter_eq_nil_iff]
        intro b hb
        intro hQb
        have := hcompat x b (List.mem_cons_self _ _) (List.mem_cons_of_mem _ hb)
          (hs.1 b hb) hQb
        rw [this] at hx'
        cases hx'
      rw [hnil]

lemma marked_members (mesh : List CPointFEM) (invalidID : Nat)
    (A B : List CPointFEM)
    (hA : ∀ p ∈ A, p.periodIndexToDonor = -1)
    (hgeB : ∀ p ∈ B, -1 ≤ p.periodIndexToDonor)
    (hltB : ∀ p ∈ B, p.periodIndexToDonor < InvalidPerInd) :
    ∀ p ∈ (A.map (markIfFound mesh invalidID) ++ B),
      p.periodIndexToDonor = InvalidPerInd ∨
        (-1 ≤ p.periodIndexToDonor ∧ p.periodIndexToDonor < InvalidPerInd) := by
  intro p hp
  rcases List.mem_append.mp hp with hp1 | hp1
  · rcases List.mem_map.mp hp1 with ⟨a, ha, hma⟩
    by_cases hf : binSearch CPointFEM.less mesh a = true
    · left
      rw [← hma]
      simp [markIfFound, hf, markPointInvalid]
    · right
      have hf' : binSearch CPointFEM.less mesh a = false := by simpa using hf
      rw [← hma]
      simp only [markIfFound, hf', Bool.false_eq_true, if_false]
      rw [hA a ha]
      constructor
      · omega
      · rw [InvalidPerInd]; omega
  · right
    exact ⟨hgeB p hp1, hltB p hp1⟩

/-- C4.  On a deduplicated (strictly sorted) halo point vector whose
periodic indices are at least −1 and below the invalid marker, the
non-periodic pass behaves as specified: every halo point with periodic
index −1 that binary search finds in the local `meshPoints` is invalidated
and dropped from the resized halo vector; no invalidated point survives;
every remaining halo point with periodic index −1 stays in the halo vector
and is appended to `meshPoints`; periodic points are left for the later
periodic pass (they all survive this pass untouched); and the points
appended to `meshPoints` are exactly the non-periodic survivors, appended
before any periodic point is processed (the ordering puts them first). -/
theorem C4_nonperiodic_halo_resolution (mesh halo : List CPointFEM)
    (globalNPoint : Nat)
    (hsorted : halo.Pairwise (fun a b => a.less b = true))
    (hge : ∀ p ∈ halo, -1 ≤ p.periodIndexToDonor)
    (hlt : ∀ p ∈ halo, p.periodIndexToDonor < InvalidPerInd) :
    (∀ p ∈ halo, p.periodIndexToDonor = -1 →
        binSearch CPointFEM.less mesh p = true →
        p ∉ (resolveNonPeriodic mesh globalNPoint halo).2) ∧
    (∀ q ∈ (resolveNonPeriodic mesh globalNPoint halo).2,
        q.periodIndexToDonor ≠ InvalidPerInd) ∧
    (∀ p ∈ halo, p.periodIndexToDonor = -1 →
        binSearch CPointFEM.less mesh p = false →
        p ∈ (resolveNonPeriodic mesh globalNPoint halo).2 ∧
        p ∈ (resolveNonPeriodic mesh globalNPoint halo).1) ∧
    (∀ p ∈ halo, p.periodIndexToDonor ≠ -1 →
        p ∈ (resolveNonPeriodic mesh globalNPoint halo).2) ∧
    ((resolveNonPeriodic mesh globalNPoint halo).1 =
        mesh ++ (resolveNonPeriodic mesh globalNPoint halo).2.filter isNonPeriodic) := by
  set A := halo.takeWhile isNonPeriodic with hAdef
  set B := halo.dropWhile isNonPeriodic with hBdef
  have hhalo : A ++ B = halo := List.takeWhile_append_dropWhile isNonPeriodic halo
  have hA : ∀ p ∈ A, p.periodIndexToDonor = -1 := by
    intro p hp
    have h := List.mem_takeWhile_imp hp
    simpa [isNonPeriodic] using h
  have hB : ∀ p ∈ B, p.periodIndexToDonor ≠ -1 :=
    dropWhile_nonperiodic halo hsorted hge
  have hgeB : ∀ p ∈ B, -1 ≤ p.periodIndexToDonor := fun p hp =>
    hge p ((List.dropWhile_sublist _).subset hp)
  have hltB : ∀ p ∈ B, p.periodIndexToDonor < InvalidPerInd := fun p hp =>
    hlt p ((List.dropWhile_sublist _).subset hp)
  set mark := markIfFound mesh (InvalidPointID globalNPoint) with hmarkdef
  set marked := A.map mark ++ B with hmarkeddef
  set k := A.countP (fun p => binSearch CPointFEM.less mesh p) with hkdef
  have hpass : invalidatePass mesh (InvalidPointID globalNPoint) halo = (marked, k) := by
    rw [← hhalo]
    exact invalidatePass_split mesh (InvalidPointID globalNPoint) A B hA hB
  set sortedMarked := cppSort CPointFEM.less marked with hsmdef
  have hres2 : (resolveNonPeriodic mesh globalNPoint halo).2 =
      sortedMarked.take (halo.length - k) := by
    simp only [resolveNonPeriodic, hpass]
  have hres1 : (resolveNonPeriodic mesh globalNPoint halo).1 =
      mesh ++ (sortedMarked.take (halo.length - k)).takeWhile isNonPeriodic := by
    simp only [resolveNonPeriodic, hpass]
  have hsortedM : sortedMarked.Pairwise (fun a b => b.less a = false) :=
    cppSort_pairwise CPointFEM.less marked
  have hmemM : ∀ x : CPointFEM, x ∈ sortedMarked ↔ x ∈ marked := fun x =>
    mem_cppSort CPointFEM.less marked x
  have hchar : ∀ p ∈ marked,
      p.periodIndexToDonor = InvalidPerInd ∨
        (-1 ≤ p.periodIndexToDonor ∧ p.periodIndexToDonor < InvalidPerInd) :=
    marked_members mesh (InvalidPointID globalNPoint) A B hA hgeB hltB
  have hforbid : ∀ a b, a ∈ sortedMarked → b ∈ sortedMarked →
      isInvalidPoint a = true → isInvalidPoint b = false → b.less a = true := by
    intro a b ha hb hPa hPb
    have hpa : a.periodIndexToDonor = InvalidPerInd := by
      simpa [isInvalidPoint] using hPa
    have hpb : b.periodIndexToDonor ≠ InvalidPerInd := by
      simpa [isInvalidPoint] using hPb
    rcases hchar b ((hmemM b).mp hb) with hc | hc
    · exact absurd hc hpb
    · rw [CPointFEM.ptLess_iff]
      omega
  have hdecomp : sortedMarked =
      sortedMarked.filter (fun p => !(isInvalidPoint p)) ++
        sortedMarked.filter isInvalidPoint :=
    sorted_filter_decomposition isInvalidPoint sortedMarked hsortedM hforbid
  have hperm : List.Perm sortedMarked marked := by
    rw [hsmdef]
    exact List.perm_insertionSort _ _
  have hcount : sortedMarked.countP isInvalidPoint = k := by
    rw [hperm.countP_eq, hmarkeddef, List.countP_append]
    have h1 : (A.map mark).countP isInvalidPoint = k := by
      rw [List.countP_map, hkdef]
      apply (List.Perm.refl A).countP_congr
      intro x hx
      by_cases hf : binSearch CPointFEM.less mesh x = true
      · simp [Function.comp, hmarkdef, markIfFound, hf, markPointInvalid, isInvalidPoint]
      · have hf' : binSearch CPointFEM.less mesh x = false := by simpa using hf
        have hxper := hA x hx
        simp [Function.comp, hmarkdef, markIfFound, hf', isInvalidPoint, hxper, InvalidPerInd]
    have h2 : B.countP isInvalidPoint = 0 := by
      rw [List.countP_eq_zero]
      intro b hb
      have hlb := hltB b hb
      simp only [isInvalidPoint, beq_iff_eq]
      omega
    rw [h1, h2]
    omega
  have hlenM : sortedMarked.length = halo.length := by
    have h1 : sortedMarked.length = marked.length := by
      rw [hsmdef]
      exact List.length_insertionSort _ _
    have h2 : marked.length = halo.length := by
      rw [hmarkeddef, ← hhalo]
      simp
    rw [h1, h2]
  have hlenfil : (sortedMarked.filter (fun p => !(isInvalidPoint p))).length =
      halo.length - k := by
    have hsum := congrArg List.length hdecomp
    rw [List.length_append] at hsum
    have hfl : (sortedMarked.filter isInvalidPoint).length = k := by
      rw [← List.countP_eq_length_filter]
      exact hcount
    omega
  have hkept : sortedMarked.take (halo.length - k) =
      sortedMarked.filter (fun p => !(isInvalidPoint p)) := by
    conv_lhs => rw [hdecomp]
    exact List.take_left' hlenfil
  have hmemKept : ∀ x : CPointFEM,
      x ∈ sortedMarked.take (halo.length - k) ↔
        (x ∈ marked ∧ isInvalidPoint x = false) := by
    intro x
    rw [hkept, List.mem_filter]
    constructor
    · rintro ⟨h1, h2⟩
      exact ⟨(hmemM x).mp h1, by simpa using h2⟩
    · rintro ⟨h1, h2⟩
      exact ⟨(hmemM x).mpr h1, by simp [h2]⟩
  have hkeptPairwise : (sortedMarked.take (halo.length - k)).Pairwise
      (fun a b => b.less a = false) := by
    rw [hkept]
    exact List.Pairwise.sublist (List.filter_sublist sortedMarked) hsortedM
  have hgeKept : ∀ x ∈ sortedMarked.take (halo.length - k),
      -1 ≤ x.periodIndexToDonor := by
    intro x hx
    rcases (hmemKept x).mp hx with ⟨hm, hinv⟩
    rcases hchar x hm with hc | hc
    · exfalso
      simp [isInvalidPoint, hc] at hinv
    · exact hc.1
  have htw : (sortedMarked.take (halo.length - k)).takeWhile isNonPeriodic =
      (sortedMarked.take (halo.length - k)).filter isNonPeriodic := by
    apply sorted_takeWhile_eq_filter isNonPeriodic _ hkeptPairwise
    intro a b ha hb hba hQb
    have hQb' : b.periodIndexToDonor = -1 := by simpa [isNonPeriodic] using hQb
    have hga := hgeKept a ha
    rw [CPointFEM.ptNot_less_iff] at hba
    have hpa : a.periodIndexToDonor = -1 := by omega
    simp [isNonPeriodic, hpa]
  refine ⟨?_, ?_, ?_, ?_, ?_⟩
  · intro p hp hper hfound hpk
    rw [hres2] at hpk
    rcases (hmemKept p).mp hpk with ⟨hm, _⟩
    rw [hmarkeddef] at hm
    rcases List.mem_append.mp hm with hm1 | hm1
    · rcases List.mem_map.mp hm1 with ⟨a, haA, hma⟩
      by_cases hf : binSearch CPointFEM.less mesh a = true
      · have hpinv : p.periodIndexToDonor = InvalidPerInd := by
          rw [← hma]
          simp [hmarkdef, markIfFound, hf, markPointInvalid]
        rw [hper, InvalidPerInd] at hpinv
        omega
      · have hf' : binSearch CPointFEM.less mesh a = false := by simpa using hf
        have hpa : p = a := by
          rw [← hma]
          simp [hmarkdef, markIfFound, hf']
        rw [hpa] at hfound
        rw [hfound] at hf'
        cases hf'
    · exact hB p hm1 hper
  · intro q hq
    rw [hres2] at hq
    rcases (hmemKept q).mp hq with ⟨_, hinv⟩
    intro hc
    simp [isInvalidPoint, hc] at hinv
  · intro p hp hper hfound
    have hpA : p ∈ A := by
      rw [← hhalo] at hp
      rcases List.mem_append.mp hp with h1 | h1
      · exact h1
      · exact absurd hper (hB p h1)
    have hpm : p ∈ marked := by
      rw [hmarkeddef]
      apply List.mem_append.mpr
      left
      apply List.mem_map.mpr
      exact ⟨p, hpA, by simp [hmarkdef, markIfFound, hfound]⟩
    have hpinv : isInvalidPoint p = false := by
      simp only [isInvalidPoint, beq_eq_false_iff_ne, Ne, hper, InvalidPerInd]
      omega
    have hpk : p ∈ sortedMarked.take (halo.length - k) :=
      (hmemKept p).mpr ⟨hpm, hpinv⟩
    constructor
    · rw [hres2]
      exact hpk
    · rw [hres1]
      apply List.mem_append.mpr
      right
      rw [htw]
      apply List.mem_filter.mpr
      exact ⟨hpk, by simp [isNonPeriodic, hper]⟩
  · intro p hp hper
    have hpB : p ∈ B := by
      rw [← hhalo] at hp
      rcases List.mem_append.mp hp with h1 | h1
      · exact absurd (hA p h1) hper
      · exact h1
    have hpm : p ∈ marked := by
      rw [hmarkeddef]
      exact List.mem_append.mpr (Or.inr hpB)
    have hpinv : isInvalidPoint p = false := by
      have hlb := hltB p hpB
      simp only [isInvalidPoint, beq_eq_false_iff_ne, Ne]
      omega
    rw [hres2]
    exact (hmemKept p).mpr ⟨hpm, hpinv⟩
  · rw [hres1, hres2, htw]

/-- Concrete local point list for the witness of C4. -/
def meshW : List CPointFEM := [{ globalID := 2, periodIndexToDonor := -1, coor := [] }]

/-- Concrete deduplicated halo point list for the witness of C4: point 2 is
already local, point 5 is a new non-periodic point, point 9 is periodic. -/
def haloW : List CPointFEM :=
  [{ globalID := 2, periodIndexToDonor := -1, coor := [] },
   { globalID := 5, periodIndexToDonor := -1, coor := [] },
   { globalID := 9, periodIndexToDonor := 0, coor := [] }]

/-- Witness for C4: on the concrete data, the already-present non-periodic
point 2 is dropped, the new non-periodic point 5 survives and is appended to
the mesh points, and the periodic point 9 survives the pass. -/
theorem C4_nonperiodic_halo_resolution_witness :
    ({ globalID := 2, periodIndexToDonor := -1, coor := [] } : CPointFEM) ∉
        (resolveNonPeriodic meshW 20 haloW).2 ∧
    (({ globalID := 5, periodIndexToDonor := -1, coor := [] } : CPointFEM) ∈
        (resolveNonPeriodic meshW 20 haloW).2 ∧
      ({ globalID := 5, periodIndexToDonor := -1, coor := [] } : CPointFEM) ∈
        (resolveNonPeriodic meshW 20 haloW).1) ∧
    ({ globalID := 9, periodIndexToDonor := 0, coor := [] } : CPointFEM) ∈
        (resolveNonPeriodic meshW 20 haloW).2 := by
  have h := C4_nonperiodic_halo_resolution meshW haloW 20
    (by decide) (by decide) (by decide)
  exact ⟨h.1 _ (by decide) (by decide) (by decide),
    h.2.2.1 _ (by decide) (by decide) (by decide),
    h.2.2.2.1 _ (by decide) (by decide)⟩

/-! ### Final layout of the volume-element array (claim C10) -/

/-- Indexed write into the modelled `volElem` array. -/
def writeSlot (arr : Nat → CVolumeElementFEM) (i : Nat) (e : CVolumeElementFEM) :
    Nat → CVolumeElementFEM :=
  fun j => if j = i then e else arr j

/-- Lines 560-591: the owned volume element built from one received element:
`elemIsOwned = true`, `rankOriginal = rank`, `periodIndexToDonor = -1`, the
remaining fields copied from the buffers. -/
def ownedVolElemOf (rank : Int) (e : RecvElem) : CVolumeElementFEM :=
  { elemIsOwned := true, rankOriginal := rank, periodIndexToDonor := -1,
    VTK_Type := e.VTK_Type, nPolyGrid := e.nPolyGrid, nPolySol := e.nPolySol,
    nDOFsGrid := e.nDOFsGrid, nDOFsSol := e.nDOFsSol, nFaces := e.nFaces,
    jacConstant := e.jacConstant, elemIDGlobal := e.elemIDGlobal,
    offsetDOFsSolGlobal := e.offsetDOFsSolGlobal, nodeIDsGrid := e.nodeIDsGrid }

/-- Lines 548-592: every received owned element is stored at the slot its
global ID maps to in `mapGlobalElemIDToInd`, the map built from the sorted
owned-ID list.  The source dereferences the map iterator unchecked; the
model leaves the array unchanged on a miss (under the theorem's hypotheses
every received ID is found). -/
def fillOwnedElems (rank : Int) (g : List Nat) (recv : List RecvElem)
    (arr : Nat → CVolumeElementFEM) : Nat → CVolumeElementFEM :=
  recv.foldl (fun a e =>
    match mapFindNat (buildElemMap 0 g) e.elemIDGlobal with
    | some ind => writeSlot a ind (ownedVolElemOf rank e)
    | none => a) arr

/-- One reply of the halo detail round-trip as stored at lines 985-1010: the
echoed slot index `indV` and the element fields written there. -/
structure HaloStored where
  indV : Nat
  elemIDGlobal : Nat
  rankOriginal : Int
  periodIndexToDonor : Int
  VTK_Type : Nat
  nPolyGrid : Nat
  nPolySol : Nat
  nDOFsGrid : Nat
  nDOFsSol : Nat
  nFaces : Nat
  nodeIDsGrid : List Nat
deriving DecidableEq, Repr, Inhabited

/-- Lines 991-1010: the halo volume element written at slot `indV`:
`elemIsOwned = false`, jacobian flag `false`, `ULONG_MAX` solution offset,
remaining fields from the reply. -/
def haloVolElemOf (r : HaloStored) : CVolumeElementFEM :=
  { elemIsOwned := false, rankOriginal := r.rankOriginal,
    periodIndexToDonor := r.periodIndexToDonor, VTK_Type := r.VTK_Type,
    nPolyGrid := r.nPolyGrid, nPolySol := r.nPolySol, nDOFsGrid := r.nDOFsGrid,
    nDOFsSol := r.nDOFsSol, nFaces := r.nFaces, jacConstant := false,
    elemIDGlobal := r.elemIDGlobal,
    offsetDOFsSolGlobal := 18446744073709551615,
    nodeIDsGrid := r.nodeIDsGrid }

/-- The write loop of step 4: each received halo reply is stored directly at
its echoed slot index. -/
def fillHaloElems (resps : List HaloStored) (arr : Nat → CVolumeElementFEM) :
    Nat → CVolumeElementFEM :=
  resps.foldl (fun a r => writeSlot a r.indV (haloVolElemOf r)) arr

/-- The assembled volume-element array: the owned elements are stored by
step 2, then the halo elements by step 4, starting from the freshly
allocated array `init` (whose slot contents are indeterminate until
written). -/
def assembleVolElems (rank : Int) (recv : List RecvElem) (resps : List HaloStored)
    (init : Nat → CVolumeElementFEM) : Nat → CVolumeElementFEM :=
  fillHaloElems resps
    (fillOwnedElems rank (cppSort natLess (recv.map RecvElem.elemIDGlobal)) recv init)

lemma buildElemMap_find (l : List Nat) (hnd : l.Nodup) :
    ∀ start i, i < l.length →
      mapFindNat (buildElemMap start l) (l.getD i 0) = some (start + i) := by
  induction l with
  | nil => intro start i hi; cases hi
  | cons x xs ih =>
    rw [List.nodup_cons] at hnd
    intro start i hi
    cases i with
    | zero =>
      simp [buildElemMap, mapFindNat, List.find?_cons]
    | succ n =>
      have hn : n < xs.length := by simpa using hi
      have hk : xs.getD n 0 ∈ xs := by
        rw [List.getD_eq_getElem xs 0 hn]
        exact List.getElem_mem hn
      have hne : (x == xs.getD n 0) = false := by
        rw [beq_eq_false_iff_ne]
        intro hc
        exact hnd.1 (hc ▸ hk)
      have hrec := ih hnd.2 (start + 1) n hn
      simp only [buildElemMap, mapFindNat, List.find?_cons, List.getD_cons_succ] at hrec ⊢
      rw [hne]
      rw [show start + (n + 1) = start + 1 + n by omega]
      exact hrec

lemma buildElemMap_find_inv (l : List Nat) :
    ∀ start y j, mapFindNat (buildElemMap start l) y = some j →
      ∃ i, i < l.length ∧ j = start + i ∧ l.getD i 0 = y := by
  induction l with
  | nil => intro start y j h; cases h
  | cons x xs ih =>
    intro start y j h
    simp only [buildElemMap, mapFindNat, List.find?_cons] at h
    rcases hxy : (x == y) with _ | _
    · rw [hxy] at h
      rcases ih (start + 1) y j h with ⟨i, hi, hj, hget⟩
      exact ⟨i + 1, by simpa using hi, by omega, by simpa using hget⟩
    · rw [hxy] at h
      have hj' : start = j := by simpa using h
      refine ⟨0, by simp, by omega, ?_⟩
      simp only [List.getD_cons_zero]
      exact eq_of_beq hxy
  
lemma fillOwnedElems_not_written (rank : Int) (g : List Nat) :
    ∀ (recv : List RecvElem) (arr : Nat → CVolumeElementFEM) (j : Nat),
      (∀ e ∈ recv, mapFindNat (buildElemMap 0 g) e.elemIDGlobal ≠ some j) →
      fillOwnedElems rank g recv arr j = arr j := by
  intro recv
  induction recv with
  | nil => intro arr j _; rfl
  | cons e es ih =>
    intro arr j h
    simp only [fillOwnedElems, List.foldl_cons]
    rcases hfind : mapFindNat (buildElemMap 0 g) e.elemIDGlobal with _ | ind
    · exact ih arr j (fun e' he' => h e' (List.mem_cons_of_mem _ he'))
    · have hne : ind ≠ j := by
        intro hc
        exact h e (List.mem_cons_self _ _) (by rw [hfind, hc])
      show fillOwnedElems rank g es (writeSlot arr ind (ownedVolElemOf rank e)) j = arr j
      rw [ih (writeSlot arr ind (ownedVolElemOf rank e)) j
        (fun e' he' => h e' (List.mem_cons_of_mem _ he'))]
      simp only [writeSlot]
      rw [if_neg (Ne.symm hne)]

lemma fillOwnedElems_written (rank : Int) (g : List Nat)
    (l1 l2 : List RecvElem) (e : RecvElem) (j : Nat)
    (hfind : mapFindNat (buildElemMap 0 g) e.elemIDGlobal = some j)
    (hrest : ∀ e' ∈ l2, mapFindNat (buildElemMap 0 g) e'.elemIDGlobal ≠ some j)
    (arr : Nat → CVolumeElementFEM) :
    fillOwnedElems rank g (l1 ++ e :: l2) arr j = ownedVolElemOf rank e := by
  simp only [fillOwnedElems, List.foldl_append, List.foldl_cons]
  rw [hfind]
  show fillOwnedElems rank g l2
    (writeSlot (fillOwnedElems rank g l1 arr) j (ownedVolElemOf rank e)) j =
      ownedVolElemOf rank e
  rw [fillOwnedElems_not_written rank g l2
    (writeSlot (fillOwnedElems rank g l1 arr) j (ownedVolElemOf rank e)) j hrest]
  simp [writeSlot]

lemma fillHaloElems_not_written :
    ∀ (resps : List HaloStored) (arr : Nat → CVolumeElementFEM) (j : Nat),
      (∀ r ∈ resps, r.indV ≠ j) → fillHaloElems resps arr j = arr j := by
  intro resps
  induction resps with
  | nil => intro arr j _; rfl
  | cons r rs ih =>
    intro arr j h
    simp only [fillHaloElems, List.foldl_cons]
    have hstep := ih (writeSlot arr r.indV (haloVolElemOf r)) j
      (fun r' hr' => h r' (List.mem_cons_of_mem _ hr'))
    simp only [fillHaloElems] at hstep
    rw [hstep]
    have hne : r.indV ≠ j := h r (List.mem_cons_self _ _)
    simp only [writeSlot]
    rw [if_neg (Ne.symm hne)]

lemma fillHaloElems_isOwned_false :
    ∀ (resps : List HaloStored) (arr : Nat → CVolumeElementFEM) (j : Nat),
      (∃ r ∈ resps, r.indV = j) →
      (fillHaloElems resps arr j).elemIsOwned = false := by
  intro resps
  induction resps with
  | nil =>
    intro arr j h
    rcases h with ⟨r, hr, _⟩
    cases hr
  | cons r rs ih =>
    intro arr j h
    simp only [fillHaloElems, List.foldl_cons]
    by_cases hrs : ∃ r' ∈ rs, r'.indV = j
    · have := ih (writeSlot arr r.indV (haloVolElemOf r)) j hrs
      simpa only [fillHaloElems] using this
    · have hr : r.indV = j := by
        rcases h with ⟨r', hr', hj⟩
        rcases List.mem_cons.mp hr' with rfl | hr'2
        · exact hj
        · exact absurd ⟨r', hr'2, hj⟩ hrs
      have hnw : ∀ r' ∈ rs, r'.indV ≠ j := by
        intro r' hr' hc
        exact hrs ⟨r', hr', hc⟩
      have := fillHaloElems_not_written rs (writeSlot arr r.indV (haloVolElemOf r)) j hnw
      simp only [fillHaloElems] at this
      rw [this]
      simp [writeSlot, hr, haloVolElemOf]

/-- C10.  Under the construction's data invariants — the received owned
global element IDs are pairwise distinct, every halo reply's echoed slot
index is at or beyond the owned count, and every halo slot receives a
reply — the assembled volume-element array holds the owned elements exactly
at indices 0..nVolElemOwned−1, each with `elemIsOwned = true` and with
global IDs strictly increasing in the index (slot i holds the i-th smallest
owned ID, because the global-to-local element map is built from the sorted
owned-ID list), while every slot from nVolElemOwned up to nVolElemTot has
`elemIsOwned = false`. -/
theorem C10_owned_prefix_sorted_halo_suffix (rank : Int) (recv : List RecvElem)
    (resps : List HaloStored) (init : Nat → CVolumeElementFEM) (nHalo : Nat)
    (hnd : (recv.map RecvElem.elemIDGlobal).Nodup)
    (hlow : ∀ r ∈ resps, recv.length ≤ r.indV)
    (hcover : ∀ j, recv.length ≤ j → j < recv.length + nHalo →
      ∃ r ∈ resps, r.indV = j) :
    (∀ i, i < recv.length →
      (assembleVolElems rank recv resps init i).elemIsOwned = true ∧
      (assembleVolElems rank recv resps init i).elemIDGlobal =
        (cppSort natLess (recv.map RecvElem.elemIDGlobal)).getD i 0) ∧
    (∀ i j, i < j → j < recv.length →
      (assembleVolElems rank recv resps init i).elemIDGlobal <
        (assembleVolElems rank recv resps init j).elemIDGlobal) ∧
    (∀ j, recv.length ≤ j → j < recv.length + nHalo →
      (assembleVolElems rank recv resps init j).elemIsOwned = false) := by
  set ids := recv.map RecvElem.elemIDGlobal with hidsdef
  set g := cppSort natLess ids with hgdef
  have hassem : assembleVolElems rank recv resps init =
      fillHaloElems resps (fillOwnedElems rank g recv init) := by
    unfold assembleVolElems
    rw [← hidsdef, ← hgdef]
  have hperm : List.Perm g ids := by
    rw [hgdef]
    exact List.perm_insertionSort _ _
  have hgnd : g.Nodup := hperm.symm.nodup hnd
  have hglen : g.length = recv.length := by
    rw [hperm.length_eq, hidsdef, List.length_map]
  have hsortedg : g.Pairwise (fun a b => natLess b a = false) :=
    cppSort_pairwise natLess ids
  have hstrict : g.Pairwise (fun a b => a < b) := by
    have hand := List.Pairwise.and hsortedg hgnd
    apply hand.imp
    intro a b hab
    rcases hab with ⟨h1, h2⟩
    have h1' : ¬(b < a) := by simpa [natLess] using h1
    omega
  have hslot : ∀ i, i < recv.length →
      ∃ e l1 l2, recv = l1 ++ e :: l2 ∧
        e.elemIDGlobal = g.getD i 0 ∧
        mapFindNat (buildElemMap 0 g) e.elemIDGlobal = some i ∧
        (∀ e' ∈ l2, mapFindNat (buildElemMap 0 g) e'.elemIDGlobal ≠ some i) := by
    intro i hi
    have hig : i < g.length := by omega
    have hx : g.getD i 0 ∈ g := by
      rw [List.getD_eq_getElem g 0 hig]
      exact List.getElem_mem hig
    have hxid : g.getD i 0 ∈ ids := hperm.subset hx
    rw [hidsdef] at hxid
    rcases List.mem_map.mp hxid with ⟨e, he, heid⟩
    rcases List.append_of_mem he with ⟨l1, l2, hsplit⟩
    have hfind : mapFindNat (buildElemMap 0 g) e.elemIDGlobal = some i := by
      rw [heid]
      have hbf := buildElemMap_find g hgnd 0 i hig
      simpa using hbf
    refine ⟨e, l1, l2, hsplit, heid, hfind, ?_⟩
    intro e' he' hc
    rcases buildElemMap_find_inv g 0 e'.elemIDGlobal i hc with ⟨i', hi', hji, hget⟩
    have hii : i' = i := by omega
    rw [hii] at hget
    have heq : e'.elemIDGlobal = e.elemIDGlobal := by
      rw [heid]
      exact hget.symm
    have hndsplit : ((l1 ++ e :: l2).map RecvElem.elemIDGlobal).Nodup := by
      rw [← hsplit]
      exact hnd
    rw [List.map_append, List.map_cons] at hndsplit
    have hnotin : e.elemIDGlobal ∉ l2.map RecvElem.elemIDGlobal :=
      (List.nodup_cons.mp (List.nodup_append.mp hndsplit).2.1).1
    exact hnotin (heq ▸ List.mem_map.mpr ⟨e', he', rfl⟩)
  have hpart1 : ∀ i, i < recv.length →
      (assembleVolElems rank recv resps init i).elemIsOwned = true ∧
      (assembleVolElems rank recv resps init i).elemIDGlobal = g.getD i 0 := by
    intro i hi
    rcases hslot i hi with ⟨e, l1, l2, hsplit, heid, hfind, hrest⟩
    have howned : fillOwnedElems rank g recv init i = ownedVolElemOf rank e := by
      conv_lhs => rw [hsplit]
      exact fillOwnedElems_written rank g l1 l2 e i hfind hrest init
    have hnothalo : fillHaloElems resps (fillOwnedElems rank g recv init) i =
        fillOwnedElems rank g recv init i := by
      apply fillHaloElems_not_written
      intro r hr hc
      have hge := hlow r hr
      omega
    rw [hassem, hnothalo, howned]
    exact ⟨rfl, by simp [ownedVolElemOf, heid]⟩
  refine ⟨hpart1, ?_, ?_⟩
  · intro i j hij hj
    rw [(hpart1 i (by omega)).2, (hpart1 j hj).2]
    have hig : i < g.length := by omega
    have hjg : j < g.length := by omega
    rw [List.getD_eq_getElem g 0 hig, List.getD_eq_getElem g 0 hjg]
    exact List.pairwise_iff_getElem.mp hstrict i j hig hjg hij
  · intro j h1 h2
    rw [hassem]
    exact fillHaloElems_isOwned_false resps _ j (hcover j h1 h2)

/-- Concrete received owned elements for the witness of C10: global element
IDs 5 and 2, received in that order. -/
def recvW : List RecvElem :=
  [{ VTK_Type := 3, nPolyGrid := 1, nPolySol := 1, nDOFsGrid := 2, nDOFsSol := 2,
     nFaces := 2, jacConstant := true, elemIDGlobal := 5, offsetDOFsSolGlobal := 10,
     nodeIDsGrid := [5, 6], faceNeighborIDs := [4, -1], facePeriodicIndex := [-1, -1],
     faceJacConstant := [true, true] },
   { VTK_Type := 3, nPolyGrid := 1, nPolySol := 1, nDOFsGrid := 2, nDOFsSol := 2,
     nFaces := 2, jacConstant := false, elemIDGlobal := 2, offsetDOFsSolGlobal := 0,
     nodeIDsGrid := [2, 3], faceNeighborIDs := [5, -1], facePeriodicIndex := [-1, -1],
     faceJacConstant := [true, false] }]

/-- Concrete halo reply for the witness of C10, echoed slot index 2. -/
def respW : HaloStored :=
  { indV := 2, elemIDGlobal := 7, rankOriginal := 1, periodIndexToDonor := -1,
    VTK_Type := 3, nPolyGrid := 1, nPolySol := 1, nDOFsGrid := 2, nDOFsSol := 2,
    nFaces := 2, nodeIDsGrid := [6, 7] }

/-- Witness for C10: with owned global IDs 5 and 2 and one halo reply echoed
to slot 2, slot 0 holds owned element 2, slot 1 holds owned element 5, and
slot 2 is marked not owned. -/
theorem C10_owned_prefix_sorted_halo_suffix_witness :
    (assembleVolElems 0 recvW [respW] (fun _ => default) 0).elemIsOwned = true ∧
    (assembleVolElems 0 recvW [respW] (fun _ => default) 0).elemIDGlobal = 2 ∧
    (assembleVolElems 0 recvW [respW] (fun _ => default) 1).elemIDGlobal = 5 ∧
    (assembleVolElems 0 recvW [respW] (fun _ => default) 2).elemIsOwned = false := by
  have hcov : ∀ j, recvW.length ≤ j → j < recvW.length + 1 →
      ∃ r ∈ [respW], r.indV = j := by
    intro j h1 h2
    have hlen : recvW.length = 2 := rfl
    rw [hlen] at h1 h2
    have hj : j = 2 := by omega
    subst hj
    exact ⟨respW, List.mem_cons_self _ _, rfl⟩
  have h := C10_owned_prefix_sorted_halo_suffix 0 recvW [respW] (fun _ => default) 1
    (by decide) (by decide) hcov
  refine ⟨(h.1 0 (by decide)).1, ?_, ?_, h.2.2 2 (by decide) (by decide)⟩
  · rw [(h.1 0 (by decide)).2]
    decide
  · rw [(h.1 1 (by decide)).2]
    decide
